import Mathlib

/-!
Verification development for the `ast-tools` repository: a shallow embedding of
`src/file.ts` (path/filesystem helpers, import-path resolution, project-root
location) and `src/analyze-imports.ts` (AST-based import extraction and the
recursive dependency-graph builder), together with theorems settling the
specification claims about them.

Conventions of the embedding:
* Paths are POSIX strings.  `path.resolve` / `path.dirname` are modelled by
  component-list normalisation (`resolvePath`, `dirname`); all base paths used
  by the code are absolute, matching the repository's usage.
* The filesystem is a finite association list from absolute paths to entries.
  An entry is a regular file (carrying the raw text plus the Babel parse
  outcome, since the Babel parser is an external dependency and is treated as
  an oracle), a directory, or an error entry whose stat/access/read all fail
  with a given error code.  `denyDirs` lists directories whose `readdirSync`
  throws (e.g. `EACCES`).
* Thrown JS exceptions are modelled with `Except String`; the uncatchable JS
  stack-overflow `RangeError` that unbounded recursion would raise is modelled
  by a fuel counter whose exhaustion produces `Except.error "RangeError"`
  (in JS such an error is catchable by `try`/`catch`, exactly as modelled).
-/

/-! ## String helpers mirroring the JS string operations used by the source -/

/-- Does `sub` occur as a contiguous sublist of `s`? -/
def containsSubL : List Char → List Char → Bool
  | [], sub => sub.isEmpty
  | c :: t, sub => sub.isPrefixOf (c :: t) || containsSubL t sub

/-- JS `s.includes(sub)`. -/
def containsStr (s sub : String) : Bool :=
  containsSubL s.data sub.data

/-- JS `s.startsWith(pre)`. -/
def strStartsWith (s pre : String) : Bool :=
  pre.data.isPrefixOf s.data

/-- JS `s.endsWith(suf)`. -/
def strEndsWith (s suf : String) : Bool :=
  suf.data.isSuffixOf s.data

/-- JS `s.slice(s.lastIndexOf('.'))`: the substring from the last `'.'` on
(when a dot is present), otherwise `s.slice(-1)`, i.e. the last character. -/
def jsSliceFromLastDot (s : String) : String :=
  if containsStr s "." then String.mk ('.' :: (List.splitOn '.' s.data).getLastD []) else s.takeRight 1

/-- JS `filePath.slice(filePath.lastIndexOf('/')).replace('/', '')`: the text
after the last `'/'` when a slash is present, otherwise the last character. -/
def jsBaseName (p : String) : String :=
  if containsStr p "/" then String.mk ((List.splitOn '/' p.data).getLastD []) else p.takeRight 1

/-! ## POSIX path model (Node `path.resolve`, `path.dirname`) -/

/-- Split an (absolute) POSIX path into its non-empty components. -/
def splitPath (p : String) : List String :=
  ((List.splitOn '/' p.data).filter (fun l => !l.isEmpty)).map String.mk

/-- Normalise a component list: drop `.`, let `..` pop the previous component
(at the root, `..` stays at the root, as in Node for absolute paths). -/
def normComps (cs : List String) : List String :=
  cs.foldl (fun acc c => if c = "." then acc else if c = ".." then acc.dropLast else acc ++ [c]) []

/-- Reassemble an absolute path from components. -/
def joinComps (cs : List String) : String :=
  "/" ++ String.intercalate "/" cs

/-- Node `path.resolve(p)` for an absolute `p`: pure normalisation. -/
def resolveAbs (p : String) : String :=
  joinComps (normComps (splitPath p))

/-- Node `path.resolve(base, p)` where `base` is absolute. -/
def resolvePath (base p : String) : String :=
  if strStartsWith p "/" then resolveAbs p
  else joinComps (normComps (splitPath base ++ splitPath p))

/-- Node `path.dirname` for an absolute path. -/
def dirname (p : String) : String :=
  joinComps ((splitPath p).dropLast)

/-! ## Import declarations: the abstract output of the Babel parser -/

/-- The three import-binding shapes visited by `analyzeImports`. -/
inductive ImportShape where
  | star : ImportShape
  | dflt : ImportShape
  | named : String → ImportShape
deriving Repr, DecidableEq

/-- One import binding as Babel reports it: its shape, the local binding name,
the specifier text, and the declaration's `importKind`. -/
structure ImportDecl where
  shape : ImportShape
  localName : String
  source : String
  importKind : Option String
deriving Repr, DecidableEq

/-- The outcome of running the Babel parser on a file's text: a syntax error,
or the list of import bindings in traversal order. -/
inductive ParseOutcome where
  | bad : ParseOutcome
  | decls : List ImportDecl → ParseOutcome
deriving Repr, DecidableEq

/-! ## Filesystem model -/

/-- A filesystem entry: a regular file (raw text plus parse outcome), a
directory, or a path whose stat/access/read fail with the given error code. -/
inductive FEntry where
  | file : String → ParseOutcome → FEntry
  | dir : FEntry
  | errf : String → FEntry
deriving Repr, DecidableEq

/-- A finite filesystem: path/entry pairs, plus directories whose
`readdirSync` throws `EACCES`. -/
structure FS where
  entries : List (String × FEntry)
  denyDirs : List String
deriving Repr, DecidableEq

def FS.lookup (fs : FS) (p : String) : Option FEntry :=
  (fs.entries.find? (fun kv => kv.1 == p)).map (fun kv => kv.2)

/-- `fs.lstatSync(p).isDirectory()` wrapped in the source's try/catch that
returns `false` on any stat error (`isDirectory` in `file.ts`). -/
def isDirectory (fs : FS) (p : String) : Bool :=
  match fs.lookup p with
  | some .dir => true
  | _ => false

/-- `fs.existsSync(p)`: `false` on absence and on stat errors. -/
def fsExists (fs : FS) (p : String) : Bool :=
  match fs.lookup p with
  | some (.file _ _) => true
  | some .dir => true
  | _ => false

/-- `fs.access(p)`: resolves when the path exists, otherwise rejects with the
error code (`ENOENT` for a missing path). -/
def fsAccess (fs : FS) (p : String) : Except String Unit :=
  match fs.lookup p with
  | some (.errf c) => .error c
  | some _ => .ok ()
  | none => .error "ENOENT"

/-- `fs.readFileSync(p, 'utf8')`: the raw text of a regular file, otherwise a
thrown error code. -/
def fsRead (fs : FS) (p : String) : Except String String :=
  match fs.lookup p with
  | some (.file raw _) => .ok raw
  | some .dir => .error "EISDIR"
  | some (.errf c) => .error c
  | none => .error "ENOENT"

/-- Name of `q` as a direct child of directory `p`, when it is one. -/
def childName (p q : String) : Option String :=
  let pc := splitPath p
  let qc := splitPath q
  if qc.length = pc.length + 1 ∧ qc.take pc.length = pc then qc.getLast? else none

/-- `fs.readdirSync(p)`: the direct children of a directory, in the order the
filesystem lists them; throws on denial, on non-directories and on absence. -/
def fsReaddir (fs : FS) (p : String) : Except String (List String) :=
  if fs.denyDirs.contains p then .error "EACCES"
  else match fs.lookup p with
  | some .dir => .ok (fs.entries.filterMap (fun kv => childName p kv.1))
  | some (.file _ _) => .error "ENOTDIR"
  | some (.errf c) => .error c
  | none => .error "ENOENT"

/-! ## `file.ts` (src/unnamed/part_000): extension probing and path resolution -/

/-- Default extension list of `readFileWithExtensions` / `existFileWithExtensions`
as written in the source: note the last entry is `'txt'`, with no leading dot. -/
def fileDefaultExts : List String :=
  [".js", ".jsx", ".ts", ".tsx", ".json", "txt"]

/-- The candidate path tried for one extension: the base path unsuffixed when it
already contains the extension as a substring, otherwise base ++ ext. -/
def candPath (base ext : String) : String :=
  if containsStr base ext then base else base ++ ext

/-- Loop body of `readFileWithExtensions`: try each candidate in order, skip to
the next only on `ENOENT`, rethrow any other read error, and throw the
not-found error naming the base path when the list is exhausted. -/
def readFileWithExtensionsGo (fs : FS) (base : String) : List String → Except String String
  | [] => .error ("No file found with the given extensions.(" ++ base ++ ")")
  | ext :: rest =>
    match fsRead fs (candPath base ext) with
    | .ok c => .ok c
    | .error code => if code == "ENOENT" then readFileWithExtensionsGo fs base rest else .error code

/-- `readFileWithExtensions(baseFilePath, extensions?)`; `none` selects the
source's default extension list. -/
def readFileWithExtensions (fs : FS) (base : String) (exts : Option (List String)) :
    Except String String :=
  readFileWithExtensionsGo fs base (exts.getD fileDefaultExts)

/-- Loop body of `existFileWithExtensions`: return the first candidate whose
`fs.access` succeeds, skip to the next only on `ENOENT`, rethrow other errors,
and return the empty string when the list is exhausted. -/
def existFileWithExtensionsGo (fs : FS) (base : String) : List String → Except String String
  | [] => .ok ""
  | ext :: rest =>
    let filePath := candPath base ext
    match fsAccess fs filePath with
    | .ok _ => .ok filePath
    | .error code => if code == "ENOENT" then existFileWithExtensionsGo fs base rest else .error code

/-- `existFileWithExtensions(baseFilePath, extensions?)`; `none` selects the
source's default extension list. -/
def existFileWithExtensions (fs : FS) (base : String) (exts : Option (List String)) :
    Except String String :=
  existFileWithExtensionsGo fs base (exts.getD fileDefaultExts)

/-- `isRelative` from `file.ts`. -/
def isRelative (p : String) : Bool :=
  strStartsWith p "." || strStartsWith p ".."

/-- JS object-update semantics: assigning key `k` keeps its original position
when present (updating the value) and appends it otherwise. -/
def jsInsert {α : Type} (m : List (String × α)) (k : String) (v : α) : List (String × α) :=
  if m.any (fun kv => kv.1 == k) then m.map (fun kv => if kv.1 == k then (k, v) else kv)
  else m ++ [(k, v)]

/-- The JS object spread `{...base, ...upd}`. -/
def jsObjAssign (base upd : List (String × String)) : List (String × String) :=
  upd.foldl (fun acc kv => jsInsert acc kv.1 kv.2) base

/-- The merged alias table `{'@/': 'src/', ...(importAlias || {})}` of
`getRealImportFilePath`. -/
def enableAlias (importAlias : Option (List (String × String))) : List (String × String) :=
  jsObjAssign [("@/", "src/")] (importAlias.getD [])

/-- JS `importPath.replace(alias, target)` as used under an
`importPath.startsWith(alias)` guard: the first occurrence is the leading one. -/
def substAlias (ip aliasKey target : String) : String :=
  target ++ ip.drop aliasKey.length

/-- The `realPath` computed by lines 128–149 of `getRealImportFilePath`, before
the directory special-case and the extension probe. -/
def computeRealPath (rootDir fileDir importPath : String)
    (importAlias : Option (List (String × String))) : String :=
  if containsStr fileDir "config/config" && !(strStartsWith importPath "@") then
    resolvePath (resolvePath rootDir "src/pages") importPath
  else if isRelative importPath then
    resolvePath (resolvePath fileDir "..") importPath
  else
    let base := if strStartsWith importPath "src" then resolvePath rootDir importPath
      else resolvePath (resolvePath rootDir "src") importPath
    (enableAlias importAlias).foldl
      (fun acc kv =>
        if strStartsWith importPath kv.1 then resolvePath rootDir (substAlias importPath kv.1 kv.2)
        else acc)
      base

/-- `getRealImportFilePath(rootDir, fileDir, importPath, importAlias?)`. -/
def getRealImportFilePath (fs : FS) (rootDir fileDir importPath : String)
    (importAlias : Option (List (String × String))) : Except String String :=
  let realPath := computeRealPath rootDir fileDir importPath importAlias
  let realPath2 := if isDirectory fs realPath then resolvePath realPath "index" else realPath
  existFileWithExtensions fs (resolveAbs realPath2) none

/-- One step of `getAppRootDir`'s upward walk. -/
def parentDir (p : String) : String :=
  resolvePath p ".."

/-- `getAppRootDir` with an explicit fuel bounding the upward walk; the source
recurses without bound, and above the filesystem root every step repeats `/`,
so exhausted fuel (`error "RangeError"`) models that non-termination. -/
def getAppRootDirFuel (fs : FS) : Nat → String → Except String String
  | 0, _ => .error "RangeError"
  | n + 1, p =>
    let parentPath := parentDir p
    match fsReaddir fs parentPath with
    | .error c => .error c
    | .ok files => if files.contains "package.json" then .ok parentPath
      else getAppRootDirFuel fs n parentPath

/-- `getAppRootDir(routeConfigPath)`: the fuel is one more than the path depth,
which is exactly enough to reach the filesystem root. -/
def getAppRootDir (fs : FS) (p : String) : Except String String :=
  getAppRootDirFuel fs ((splitPath p).length + 1) p

/-! ## `src/analyze-imports.ts`: import extraction and the dependency graph -/

/-- The supported parse extensions (`extensions` in `analyze-imports.ts`). -/
def extensions : List String :=
  [".js", ".jsx", ".ts", ".tsx"]

/-- One entry of the import mapping produced by `analyzeImports`. -/
structure ImportMap where
  id : String
  source : String
  importKind : Option String
  exportName : Option String
deriving Repr, DecidableEq

/-- A node of the dependency tree (`ImportMapWithDeps` without the unused
`beImportedId`, which the source never assigns). -/
inductive DepNode where
  | mk : String → String → Option String → Option String →
      Option (List (String × DepNode)) → DepNode

def DepNode.id : DepNode → String
  | .mk i _ _ _ _ => i

def DepNode.source : DepNode → String
  | .mk _ s _ _ _ => s

def DepNode.importKind : DepNode → Option String
  | .mk _ _ k _ _ => k

def DepNode.exportName : DepNode → Option String
  | .mk _ _ _ e _ => e

def DepNode.dependencies : DepNode → Option (List (String × DepNode))
  | .mk _ _ _ _ d => d

/-- The tail of `transformToAST`: read `realPath` and parse it, with the
source's try/catch turning read and parse failures (and empty content) into
`null`; an empty `realPath` also yields `null`. -/
def parseAt (fs : FS) (realPath : String) : Option (List ImportDecl) :=
  if realPath = "" then none
  else match fs.lookup realPath with
  | some (.file raw po) =>
    if raw = "" then none
    else match po with
    | .bad => none
    | .decls ds => some ds
  | _ => none

/-- First element of `ps` that exists on the filesystem, or `""` (the JS
`pathes.find(...)` whose `undefined` is falsy downstream). -/
def firstExisting (fs : FS) (ps : List String) : String :=
  (ps.find? (fun p => fsExists fs p)).getD ""

/-- `transformToAST(filePath)`: pick the real path to parse (directory scan for
an `index` file, or suffix check / extension probe for a plain path) and parse
it.  The directory `readdirSync` is outside the try/catch, so its errors
propagate. -/
def transformToAST (fs : FS) (filePath : String) : Except String (Option (List ImportDecl)) :=
  if isDirectory fs filePath then
    match fsReaddir fs filePath with
    | .error e => .error e
    | .ok items =>
      let realPath := items.foldl
        (fun acc item =>
          if !(isDirectory fs (resolvePath filePath item)) && containsStr item "index" &&
              extensions.contains (jsSliceFromLastDot item)
          then resolvePath filePath item else acc)
        ""
      .ok (parseAt fs realPath)
  else
    let fileName := jsBaseName filePath
    let suffix := if containsStr fileName "." then jsSliceFromLastDot fileName else ""
    let realPath :=
      if suffix != "" && extensions.contains suffix then filePath
      else if suffix == "" then
        firstExisting fs (filePath :: extensions.map (fun ext => filePath ++ ext))
      else ""
    .ok (parseAt fs realPath)

/-- The `exportName` each visitor records for its import-binding shape. -/
def shapeExportName : ImportShape → Option String
  | .star => none
  | .dflt => some "default"
  | .named n => some n

/-- The shared body of the three visitors of `analyzeImports`: compute
`absoluteSource` (relative specifiers resolve against `filePath` itself for a
directory and against its parent directory otherwise; bare specifiers pass the
filter or are dropped), then record the descriptor under the source's
`if (absoluteSource)` guard — JS truthiness, so an assigned but EMPTY string
is also skipped. -/
def processImport (fs : FS) (filePath : String) (filter : Option (String → Bool))
    (d : ImportDecl) : Option ImportMap :=
  let absoluteSource : Option String :=
    if isRelative d.source then
      if isDirectory fs filePath then some (resolvePath filePath d.source)
      else some (resolvePath (dirname filePath) d.source)
    else if (match filter with | none => true | some f => f d.source) then some d.source
    else none
  match absoluteSource with
  | some abs =>
    if abs = "" then none
    else some ⟨abs, d.source, d.importKind, shapeExportName d.shape⟩
  | none => none

/-- The traversal of `analyzeImports`: process the declarations in order,
writing each accepted descriptor under its local binding name into the result
object (later declarations overwrite earlier ones with the same name). -/
def buildImports (fs : FS) (filePath : String) (filter : Option (String → Bool))
    (ds : List ImportDecl) : List (String × ImportMap) :=
  ds.foldl
    (fun acc d =>
      match processImport fs filePath filter d with
      | none => acc
      | some im => jsInsert acc d.localName im)
    []

/-- `analyzeImports(filePath, filter?)`. -/
def analyzeImports (fs : FS) (filePath : String) (filter : Option (String → Bool)) :
    Except String (List (String × ImportMap)) :=
  match transformToAST fs filePath with
  | .error e => .error e
  | .ok none => .ok []
  | .ok (some ds) => .ok (buildImports fs filePath filter ds)

/-- An `ImportMap` entry as a leaf node (no `dependencies` attached). -/
def toLeaf (im : ImportMap) : DepNode :=
  .mk im.id im.source im.importKind im.exportName none

/-- An `ImportMap` entry with its expanded `dependencies` attached. -/
def withDeps (im : ImportMap) (sub : List (String × DepNode)) : DepNode :=
  .mk im.id im.source im.importKind im.exportName (some sub)

/-- `deepCollect(last, parentIds)`: expand each relative, non-`.json` entry by
extracting its target's own imports; before attaching them, skip (leaving the
entry a leaf) when any just-extracted child id already appears in `parentIds`.
The fuel models the JS call stack; exhaustion is the catchable `RangeError`. -/
def deepCollect (fs : FS) (filter : Option (String → Bool)) :
    Nat → List (String × ImportMap) → List String → Except String (List (String × DepNode))
  | 0, _, _ => .error "RangeError"
  | _ + 1, [], _ => .ok []
  | fuel + 1, (key, dep) :: rest, parentIds =>
    let head : Except String (String × DepNode) :=
      if isRelative dep.source && !(strEndsWith dep.id ".json") then
        match analyzeImports fs dep.id filter with
        | .error e => .error e
        | .ok innerDeps =>
          if innerDeps.any (fun kv => parentIds.contains kv.2.id) then .ok (key, toLeaf dep)
          else match deepCollect fs filter fuel innerDeps (parentIds ++ [dep.id]) with
          | .error e => .error e
          | .ok sub => .ok (key, withDeps dep sub)
      else .ok (key, toLeaf dep)
    match head with
    | .error e => .error e
    | .ok node =>
      match deepCollect fs filter fuel rest parentIds with
      | .error e => .error e
      | .ok nodes => .ok (node :: nodes)

/-- Fuel with which the graph build is run; generous enough for every graph a
finite model filesystem of this size can produce in the concrete claims. -/
def defaultFuel (fs : FS) : Nat :=
  (fs.entries.length + 2) * (fs.entries.length + 2)

/-- The body of `analyzeDependencies` before its top-level try/catch: the
root's direct imports, then the recursive expansion seeded with `[filePath]`. -/
def analyzeDependenciesCore (fs : FS) (filePath : String)
    (filter : Option (String → Bool)) : Except String (List (String × DepNode)) :=
  match analyzeImports fs filePath filter with
  | .error e => .error e
  | .ok dependencies => deepCollect fs filter (defaultFuel fs) dependencies [filePath]

/-- `analyzeDependencies(filePath, filter?)`: the whole build is wrapped in
try/catch; any thrown error is logged and the empty mapping returned. -/
def analyzeDependencies (fs : FS) (filePath : String)
    (filter : Option (String → Bool)) : List (String × DepNode) :=
  match analyzeDependenciesCore fs filePath filter with
  | .ok d => d
  | .error _ => []

/-! ## Concrete model filesystems used by the claims -/

/-- Two-file mutual cycle: `/p/a.ts` imports `./b`, `/p/b.ts` imports `./a`. -/
def fsCyc : FS :=
  ⟨[("/p/a.ts", .file "ia" (.decls [⟨.dflt, "b", "./b", some "value"⟩])),
    ("/p/b.ts", .file "ib" (.decls [⟨.dflt, "a", "./a", some "value"⟩]))], []⟩

/-- A directory whose `readdirSync` is denied: the one internal throw of the
graph build that `analyzeImports` does not swallow. -/
def fsDeny : FS :=
  ⟨[("/d", .dir)], ["/d"]⟩

/-- Entry `/p/e.ts` imports `./a` and `lodash`; `/p/a.ts` has no imports. -/
def fsC6 : FS :=
  ⟨[("/p/e.ts", .file "ie" (.decls
      [⟨.dflt, "a", "./a", some "value"⟩, ⟨.dflt, "l", "lodash", some "value"⟩])),
    ("/p/a.ts", .file "noimports" (.decls []))], []⟩

/-- A project with `src/utils/foo.ts`, the target of the `@utils/` alias. -/
def fs3 : FS :=
  ⟨[("/r/src/utils/foo.ts", .file "x" (.decls []))], []⟩

/-- A file literally named `btxt`: reached by the dot-less `'txt'` default
extension of `readFileWithExtensions`. -/
def fs5 : FS :=
  ⟨[("/a/btxt", .file "X" (.decls []))], []⟩

/-- An ordinary probe target for the witness of the amended read claim. -/
def fs5w : FS :=
  ⟨[("/w/y.ts", .file "C" (.decls []))], []⟩

/-- `src/components/Button/` is a directory holding `index.tsx`. -/
def fs7 : FS :=
  ⟨[("/r/src/components/Button", .dir),
    ("/r/src/components/Button/index.tsx", .file "x" (.decls []))], []⟩

/-- `package.json` lives in `/h/app`; the walk starts two levels below. -/
def fs8 : FS :=
  ⟨[("/h", .dir), ("/h/app", .dir), ("/h/app/package.json", .file "{}" .bad),
    ("/h/app/cfg", .dir), ("/h/app/cfg/routes.ts", .file "r" (.decls []))], []⟩

/-- A `.json` file whose text would parse to an import were it ever parsed. -/
def fsC9 : FS :=
  ⟨[("/p/d.json", .file "imp" (.decls [⟨.dflt, "x", "./y", some "value"⟩]))], []⟩

/-- `src/m.js` exists but access to it fails with `EACCES` (not `ENOENT`). -/
def fs10 : FS :=
  ⟨[("/p/src/m.js", .errf "EACCES")], []⟩

/-! ## C1: the graph builder never throws and is all-or-nothing -/

/-- C1: `analyzeDependencies` never throws to its caller: whatever
`analyzeDependenciesCore` (the body inside the try/catch) does, the call
returns a plain mapping — the complete graph when the body succeeds, and the
empty mapping whenever any internal failure occurs, never a partial graph. -/
theorem analyzeDependencies_all_or_nothing (fs : FS) (filePath : String)
    (filter : Option (String → Bool)) :
    (∀ e, analyzeDependenciesCore fs filePath filter = .error e →
      analyzeDependencies fs filePath filter = []) ∧
    (∀ d, analyzeDependenciesCore fs filePath filter = .ok d →
      analyzeDependencies fs filePath filter = d) := by
  constructor
  · intro e h
    unfold analyzeDependencies
    rw [h]
  · intro d h
    unfold analyzeDependencies
    rw [h]

/-- Witness for C1: on `fsDeny` the body really does throw (`EACCES` escapes
`analyzeImports`), and the caller receives the empty mapping. -/
theorem analyzeDependencies_all_or_nothing_witness :
    analyzeDependencies fsDeny "/d" none = [] :=
  (analyzeDependencies_all_or_nothing fsDeny "/d" none).1 "EACCES" rfl

/-! ## C2: two-file mutual cycle -/

/-- Counterexample to C2 as stated: in the mutual cycle `fsCyc`, calling
`analyzeDependencies` on the root in its on-disk form `/p/a.ts` yields a `b`
node whose `dependencies` ARE attached (`some …`, holding the nested `a`
node), because the extracted child ids are extensionless (`/p/a`) and never
match the `.ts`-suffixed root seeding the ancestor list; `b` is not a leaf. -/
theorem analyzeDependencies_cycle_root_with_ext :
    (analyzeDependencies fsCyc "/p/a.ts" none).map
        (fun kv => (kv.1, DepNode.dependencies kv.2)) =
      [("b", some [("a", DepNode.mk "/p/a" "./a" (some "value") (some "default") none)])] :=
  rfl

/-- C2 amended: building the graph of the mutual cycle terminates (the body
returns `.ok`, with no stack overflow) from either form of the root path.
When the root is passed in the extensionless form `/p/a` — the same form the
resolver gives child ids — the just-extracted-children check fires at once and
`b` appears as a leaf; when the root is passed as `/p/a.ts`, `b`'s
dependencies are attached and the nested `a` node is the leaf one level
deeper, the check firing there instead. -/
theorem analyzeDependencies_cycle_terminates :
    analyzeDependenciesCore fsCyc "/p/a" none =
      .ok [("b", DepNode.mk "/p/b" "./b" (some "value") (some "default") none)] ∧
    analyzeDependencies fsCyc "/p/a" none =
      [("b", DepNode.mk "/p/b" "./b" (some "value") (some "default") none)] ∧
    analyzeDependenciesCore fsCyc "/p/a.ts" none =
      .ok [("b", DepNode.mk "/p/b" "./b" (some "value") (some "default")
        (some [("a", DepNode.mk "/p/a" "./a" (some "value") (some "default") none)]))] :=
  ⟨rfl, rfl, rfl⟩

/-! ## C4: relative specifiers resolve one level above the importing file -/

/-- C4: in `getRealImportFilePath`, for every relative `importPath` and every
`fileDir` not containing the routing-config marker, the pre-probe path is
`importPath` resolved against the directory one level above the importing
file's own directory, `path.resolve(fileDir, '..', importPath)`. -/
theorem computeRealPath_relative (rootDir fileDir importPath : String)
    (al : Option (List (String × String)))
    (h1 : containsStr fileDir "config/config" = false)
    (h2 : isRelative importPath = true) :
    computeRealPath rootDir fileDir importPath al =
      resolvePath (resolvePath fileDir "..") importPath := by
  simp [computeRealPath, h1, h2]

/-- Witness for C4: `./pages/home` imported from `/r/cfg/routes.ts` lands in
`/r/cfg/pages/home` — the sibling scope of `cfg`, not inside it. -/
theorem computeRealPath_relative_witness :
    computeRealPath "/r" "/r/cfg/routes.ts" "./pages/home" none = "/r/cfg/pages/home" :=
  (computeRealPath_relative "/r" "/r/cfg/routes.ts" "./pages/home" none rfl rfl).trans rfl

/-! ## C7: a directory target gets `index` appended before probing -/

/-- C7: whenever the path computed from the specifier denotes an existing
directory, `index` is appended to it before extension probing. -/
theorem getRealImportFilePath_dir_index (fs : FS) (rootDir fileDir importPath : String)
    (al : Option (List (String × String)))
    (h : isDirectory fs (computeRealPath rootDir fileDir importPath al) = true) :
    getRealImportFilePath fs rootDir fileDir importPath al =
      existFileWithExtensions fs
        (resolveAbs (resolvePath (computeRealPath rootDir fileDir importPath al) "index")) none := by
  simp [getRealImportFilePath, h]

/-- Witness for C7: resolving `components/Button` where `Button/` is a
directory containing `Button/index.tsx` yields that index file. -/
theorem getRealImportFilePath_dir_index_witness :
    getRealImportFilePath fs7 "/r" "/r/f.ts" "components/Button" none =
      .ok "/r/src/components/Button/index.tsx" :=
  (getRealImportFilePath_dir_index fs7 "/r" "/r/f.ts" "components/Button" none rfl).trans rfl

/-! ## C9: unsupported dot-suffixes are never probed or parsed -/

/-- A string built from a non-empty character list is never the empty string. -/
theorem mk_cons_ne_empty (c : Char) (l : List Char) : ¬ (String.mk (c :: l) = "") :=
  fun h => by simpa using congrArg String.data h

/-- C9: for every non-directory `filePath` whose name contains a `.` and whose
final dot-suffix is not one of `.js`, `.jsx`, `.ts`, `.tsx`, `analyzeImports`
returns the empty mapping.  The statement holds for EVERY filesystem — in
particular for one where the file exists and its text would parse to imports —
which is exactly the sense in which no probing and no parsing ever happens for
such a path. -/
theorem analyzeImports_unsupported_suffix (fs : FS) (filePath : String)
    (filter : Option (String → Bool))
    (h1 : isDirectory fs filePath = false)
    (h2 : containsStr (jsBaseName filePath) "." = true)
    (h3 : extensions.contains (jsSliceFromLastDot (jsBaseName filePath)) = false) :
    analyzeImports fs filePath filter = .ok [] := by
  unfold analyzeImports transformToAST
  rw [h1]
  simp only [Bool.false_eq_true, if_false, h2, if_true]
  rw [h3]
  simp [jsSliceFromLastDot, h2, parseAt, mk_cons_ne_empty]

/-- Witness for C9: `/p/d.json` exists, is a file, and its text would parse to
an import — yet `analyzeImports` returns the empty mapping. -/
theorem analyzeImports_unsupported_suffix_witness :
    analyzeImports fsC9 "/p/d.json" none = .ok [] :=
  analyzeImports_unsupported_suffix fsC9 "/p/d.json" none rfl rfl rfl

/-! ## C3: alias substitution on bare specifiers -/

/-- The last-match-wins shape of the alias `forEach` loop: folding the table
left-to-right, overwriting on every matching alias, equals taking the LAST
matching alias in iteration order (the first in the reversed table). -/
theorem foldl_alias_lastMatch (ip rootDir : String) (l : List (String × String)) (init : String) :
    l.foldl
      (fun acc kv =>
        if strStartsWith ip kv.1 then resolvePath rootDir (substAlias ip kv.1 kv.2) else acc)
      init
    = (match l.reverse.find? (fun kv => strStartsWith ip kv.1) with
      | some kv => resolvePath rootDir (substAlias ip kv.1 kv.2)
      | none => init) := by
  induction l generalizing init with
  | nil => simp
  | cons p xs ih =>
    rw [List.foldl_cons, ih, List.reverse_cons, List.find?_append]
    cases hf : xs.reverse.find? (fun kv => strStartsWith ip kv.1) with
    | some q => simp [Option.or]
    | none =>
      by_cases hm : strStartsWith ip p.1 = true
      · simp [Option.or, List.find?, hm]
      · simp only [Bool.not_eq_true] at hm
        simp [Option.or, List.find?, hm]

/-- C3: for a bare (non-relative) specifier outside the routing-config branch,
alias substitution starts from the default table `{'@/': 'src/'}` merged under
the caller's aliases (`enableAlias`), and each alias whose prefix starts the
specifier rewrites the result to the alias target (prefix substituted)
resolved under `rootDir`, the last matching alias in the merged table's
iteration order winning; in particular with the merged table
`{'@/': 'src/', '@utils/': 'src/utils/'}`, `@utils/foo` resolves under
`src/utils/foo` — `/r/src/utils/foo.ts` — not under `src/@utils/foo`. -/
theorem getRealImportFilePath_alias (rootDir fileDir importPath : String)
    (al : Option (List (String × String)))
    (h1 : (containsStr fileDir "config/config" && !(strStartsWith importPath "@")) = false)
    (h2 : isRelative importPath = false) :
    (computeRealPath rootDir fileDir importPath al =
      match (enableAlias al).reverse.find? (fun kv => strStartsWith importPath kv.1) with
      | some kv => resolvePath rootDir (kv.2 ++ importPath.drop kv.1.length)
      | none =>
        if strStartsWith importPath "src" then resolvePath rootDir importPath
        else resolvePath (resolvePath rootDir "src") importPath) ∧
    getRealImportFilePath fs3 "/r" "/r/f.ts" "@utils/foo"
        (some [("@/", "src/"), ("@utils/", "src/utils/")]) = .ok "/r/src/utils/foo.ts" := by
  refine ⟨?_, rfl⟩
  simp only [computeRealPath, h1, h2, Bool.false_eq_true, if_false]
  rw [foldl_alias_lastMatch]
  simp [substAlias]

/-- Witness for C3: the `@utils/` alias wins for `@utils/foo`, producing the
pre-probe path `/r/src/utils/foo` and the probed file `/r/src/utils/foo.ts`. -/
theorem getRealImportFilePath_alias_witness :
    computeRealPath "/r" "/r/f.ts" "@utils/foo"
        (some [("@/", "src/"), ("@utils/", "src/utils/")]) = "/r/src/utils/foo" ∧
    getRealImportFilePath fs3 "/r" "/r/f.ts" "@utils/foo"
        (some [("@/", "src/"), ("@utils/", "src/utils/")]) = .ok "/r/src/utils/foo.ts" := by
  have h := getRealImportFilePath_alias "/r" "/r/f.ts" "@utils/foo"
    (some [("@/", "src/"), ("@utils/", "src/utils/")]) rfl rfl
  exact ⟨h.1.trans rfl, h.2⟩

/-! ## C5: `readFileWithExtensions` and its default extension list -/

/-- The default extension list the claim asserts: six dot-prefixed suffixes.
The source's actual list (`fileDefaultExts`) ends in `'txt'` with no dot. -/
def claimedDefaultExts : List String :=
  [".js", ".jsx", ".ts", ".tsx", ".json", ".txt"]

/-- Modelled from the claim's words for C5: try each suffix in order (probing
the base path unsuffixed whenever the base already contains that candidate
extension as a substring), return the contents of the first file that reads
successfully, and fail with the not-found error identifying the base path if
no candidate exists. -/
def readFileWithExtensionsSpec (fs : FS) (base : String) (exts : List String) :
    Except String String :=
  match (exts.map (fun ext => candPath base ext)).filterMap
      (fun p => (fsRead fs p).toOption) with
  | [] => .error ("No file found with the given extensions.(" ++ base ++ ")")
  | c :: _ => .ok c

/-- Counterexample to C5 as stated: the source's default list ends in `'txt'`
(no dot), not `.txt`.  On a filesystem holding only a file literally named
`/a/btxt`, the code's sixth candidate is `/a/btxt` and the read succeeds,
whereas under the claimed `.txt` list every candidate misses and the claimed
behaviour is the not-found error — the two differ at this concrete input. -/
theorem readFileWithExtensions_txt_cex :
    readFileWithExtensions fs5 "/a/b" none = .ok "X" ∧
    readFileWithExtensionsSpec fs5 "/a/b" claimedDefaultExts =
      .error "No file found with the given extensions.(/a/b)" ∧
    readFileWithExtensions fs5 "/a/b" none ≠
      readFileWithExtensionsSpec fs5 "/a/b" claimedDefaultExts :=
  ⟨rfl, rfl, fun h => Except.noConfusion h⟩

/-- A read outcome that the probing loop can handle without rethrowing:
success, or the not-found code `ENOENT`. -/
def okOrEnoent : Except String String → Bool
  | .ok _ => true
  | .error c => c == "ENOENT"

/-- On any extension list whose candidates all read as success-or-`ENOENT`,
the source's loop agrees with the first-successful-read specification. -/
theorem readFileWithExtensionsGo_spec (fs : FS) (base : String) (exts : List String)
    (h : ∀ ext ∈ exts, okOrEnoent (fsRead fs (candPath base ext)) = true) :
    readFileWithExtensionsGo fs base exts = readFileWithExtensionsSpec fs base exts := by
  induction exts with
  | nil => rfl
  | cons e rest ih =>
    have he := h e (List.mem_cons_self e rest)
    unfold readFileWithExtensionsGo readFileWithExtensionsSpec
    cases hr : fsRead fs (candPath base e) with
    | ok c => simp [hr, Except.toOption]
    | error code =>
      rw [hr] at he
      have hcode : code = "ENOENT" := by simpa [okOrEnoent] using he
      subst hcode
      have hrest := ih (fun ext hm => h ext (List.mem_cons_of_mem _ hm))
      simpa [hr, Except.toOption, readFileWithExtensionsSpec] using hrest

/-- C5 amended: `readFileWithExtensions` without an explicit extension list
uses the source's default ordered list `.js, .jsx, .ts, .tsx, .json, txt` —
the last entry dot-less — and (whenever every candidate read yields success or
`ENOENT`) tries each suffix in order, probing the base unsuffixed when the
base already contains the candidate extension as a substring, returns the
first successful read's contents, and throws the not-found error identifying
the base path when no candidate exists. -/
theorem readFileWithExtensions_default (fs : FS) (base : String)
    (h : ∀ ext ∈ fileDefaultExts, okOrEnoent (fsRead fs (candPath base ext)) = true) :
    readFileWithExtensions fs base none = readFileWithExtensionsSpec fs base fileDefaultExts :=
  readFileWithExtensionsGo_spec fs base fileDefaultExts h

/-- Witness for C5 (amended): an ordinary probe, `/w/y` finding `/w/y.ts`. -/
theorem readFileWithExtensions_default_witness :
    readFileWithExtensions fs5w "/w/y" none = readFileWithExtensionsSpec fs5w "/w/y" fileDefaultExts ∧
    readFileWithExtensions fs5w "/w/y" none = .ok "C" :=
  ⟨readFileWithExtensions_default fs5w "/w/y" (by decide), rfl⟩

/-! ## C6: relative specifiers always kept, bare specifiers filtered -/

/-- `path.resolve` output always starts with `/` and is never empty. -/
theorem joinComps_ne_empty (cs : List String) : joinComps cs ≠ "" :=
  fun h => mk_cons_ne_empty '/' (String.intercalate "/" cs).data h

/-- A resolved path is never the empty string, so the truthiness guard never
drops a resolved relative import. -/
theorem resolvePath_ne_empty (b p : String) : resolvePath b p ≠ "" := by
  unfold resolvePath resolveAbs
  split <;> exact joinComps_ne_empty _

/-- C6: in the shared visitor body of `analyzeImports`, a relative specifier
is always included — with id the specifier resolved against `filePath` itself
when `filePath` is a directory and against `filePath`'s parent directory
otherwise — regardless of the filter (a resolved path is never empty, so the
source's `if (absoluteSource)` truthiness guard never drops it); a bare
specifier is included, with id the raw specifier, exactly when the filter is
absent or accepts it AND the raw specifier is non-empty (the truthiness guard
skips the JS-falsy `''`) — in particular only when no filter is supplied or
the filter accepts it, as the claim states.  Consequently an entry importing
`./a` and `lodash` under a filter rejecting `lodash` yields a mapping with
`./a` resolved and no `lodash` entry, and since `/p/a.ts` has no imports, the
`./a` node carries an empty — present, not absent — `dependencies` mapping. -/
theorem analyzeImports_filter (fs : FS) (filePath : String)
    (filter : Option (String → Bool)) (d : ImportDecl) :
    (isRelative d.source = true →
      processImport fs filePath filter d =
        some ⟨if isDirectory fs filePath then resolvePath filePath d.source
              else resolvePath (dirname filePath) d.source,
          d.source, d.importKind, shapeExportName d.shape⟩) ∧
    (isRelative d.source = false →
      processImport fs filePath filter d =
        (if (match filter with | none => true | some f => f d.source) && !(d.source == "") then
          some ⟨d.source, d.source, d.importKind, shapeExportName d.shape⟩ else none)) ∧
    analyzeDependencies fsC6 "/p/e.ts" (some (fun s => s != "lodash")) =
      [("a", DepNode.mk "/p/a" "./a" (some "value") (some "default") (some []))] := by
  refine ⟨?_, ?_, rfl⟩
  · intro h
    unfold processImport
    rw [h]
    by_cases hd : isDirectory fs filePath = true
    · simp [hd, resolvePath_ne_empty]
    · simp only [Bool.not_eq_true] at hd
      simp [hd, resolvePath_ne_empty]
  · intro h
    unfold processImport
    rw [h]
    by_cases hf : (match filter with | none => true | some f => f d.source) = true
    · by_cases hs : d.source = ""
      · rw [hs] at hf
        simp [hf, hs]
      · simp [hf, hs]
    · simp only [Bool.not_eq_true] at hf
      simp [hf]

/-- Witness for C6: on the concrete entry file, `./a` is accepted with its
resolved absolute id and `lodash` is dropped by the filter. -/
theorem analyzeImports_filter_witness :
    processImport fsC6 "/p/e.ts" (some (fun s => s != "lodash"))
        ⟨.dflt, "a", "./a", some "value"⟩ = some ⟨"/p/a", "./a", some "value", some "default"⟩ ∧
    processImport fsC6 "/p/e.ts" (some (fun s => s != "lodash"))
        ⟨.dflt, "l", "lodash", some "value"⟩ = none := by
  have h1 := (analyzeImports_filter fsC6 "/p/e.ts" (some (fun s => s != "lodash"))
    ⟨.dflt, "a", "./a", some "value"⟩).1 rfl
  have h2 := (analyzeImports_filter fsC6 "/p/e.ts" (some (fun s => s != "lodash"))
    ⟨.dflt, "l", "lodash", some "value"⟩).2.1 rfl
  exact ⟨h1.trans rfl, h2.trans rfl⟩

/-! ## C8: locating the project root by walking up to `package.json` -/

/-- The chain of ancestor directories visited by the upward walk: the
immediate parent first, then one directory up at each step. -/
def ancChainAux : Nat → String → List String
  | 0, _ => []
  | n + 1, p => parentDir p :: ancChainAux n (parentDir p)

/-- The full ancestor chain of `p`, long enough to reach the root. -/
def ancChain (p : String) : List String :=
  ancChainAux ((splitPath p).length + 1) p

/-- The nearest ancestor directory (immediate parent first) whose listing
contains a file literally named `package.json`; `none` when the walk hits an
unlistable directory or exhausts the chain. -/
def nearestPkgRoot (fs : FS) : List String → Option String
  | [] => none
  | d :: rest =>
    match fsReaddir fs d with
    | .error _ => none
    | .ok files => if files.contains "package.json" then some d else nearestPkgRoot fs rest

/-- The fuelled walk returns exactly the nearest `package.json` ancestor of
the chain it visits, whenever there is one. -/
theorem getAppRootDirFuel_finds (fs : FS) :
    ∀ (n : Nat) (p d : String), nearestPkgRoot fs (ancChainAux n p) = some d →
      getAppRootDirFuel fs n p = .ok d := by
  intro n
  induction n with
  | zero => intro p d h; exact absurd h (by simp [ancChainAux, nearestPkgRoot])
  | succ n ih =>
    intro p d h
    cases hr : fsReaddir fs (parentDir p) with
    | error c => simp [ancChainAux, nearestPkgRoot, hr] at h
    | ok files =>
      simp only [ancChainAux, nearestPkgRoot, hr] at h
      unfold getAppRootDirFuel
      simp only [hr]
      by_cases hc : files.contains "package.json" = true
      · simp only [hc, if_true] at h ⊢
        exact congrArg Except.ok (Option.some.inj h)
      · simp only [Bool.not_eq_true] at hc
        simp only [hc, Bool.false_eq_true, if_false] at h ⊢
        exact ih (parentDir p) d h

/-- C8: for every `startPath` one of whose ancestor directories contains a
file literally named `package.json` (the walk to it staying listable),
`getAppRootDir` terminates and returns the nearest such ancestor, checking
the immediate parent first and walking upward one directory at a time. -/
theorem getAppRootDir_nearest (fs : FS) (p d : String)
    (h : nearestPkgRoot fs (ancChain p) = some d) :
    getAppRootDir fs p = .ok d :=
  getAppRootDirFuel_finds fs ((splitPath p).length + 1) p d h

/-- Witness for C8: from `/h/app/cfg/routes.ts`, the nearest ancestor holding
`package.json` is `/h/app` (not `/h`), found after one step up. -/
theorem getAppRootDir_nearest_witness :
    getAppRootDir fs8 "/h/app/cfg/routes.ts" = .ok "/h/app" :=
  getAppRootDir_nearest fs8 "/h/app/cfg/routes.ts" "/h/app" rfl

/-! ## C10: only `ENOENT` means "try the next candidate" -/

/-- C10: both probing helpers skip to the next candidate exactly on `ENOENT`
and rethrow any other filesystem error immediately; consequently
`getRealImportFilePath`'s final probe can propagate such an error (here an
`EACCES` on `/p/src/m.js`) to its caller instead of returning the
empty-string soft-failure sentinel. -/
theorem probe_skips_only_enoent (fs : FS) (base ext : String) (rest : List String) (c : String) :
    (fsAccess fs (candPath base ext) = .error c → (c == "ENOENT") = false →
      existFileWithExtensions fs base (some (ext :: rest)) = .error c) ∧
    (fsAccess fs (candPath base ext) = .error "ENOENT" →
      existFileWithExtensions fs base (some (ext :: rest)) =
        existFileWithExtensions fs base (some rest)) ∧
    (fsRead fs (candPath base ext) = .error c → (c == "ENOENT") = false →
      readFileWithExtensions fs base (some (ext :: rest)) = .error c) ∧
    (fsRead fs (candPath base ext) = .error "ENOENT" →
      readFileWithExtensions fs base (some (ext :: rest)) =
        readFileWithExtensions fs base (some rest)) ∧
    getRealImportFilePath fs10 "/p" "/p/f.ts" "m" none = .error "EACCES" := by
  refine ⟨?_, ?_, ?_, ?_, rfl⟩
  · intro h hne
    simp [existFileWithExtensions, existFileWithExtensionsGo, h, hne]
  · intro h
    simp [existFileWithExtensions, existFileWithExtensionsGo, h]
  · intro h hne
    simp [readFileWithExtensions, readFileWithExtensionsGo, h, hne]
  · intro h
    simp [readFileWithExtensions, readFileWithExtensionsGo, h]

/-- Witness for C10: the `EACCES` on `/p/src/m.js` is rethrown by both
helpers rather than treated as a miss. -/
theorem probe_skips_only_enoent_witness :
    existFileWithExtensions fs10 "/p/src/m" (some [".js"]) = .error "EACCES" ∧
    readFileWithExtensions fs10 "/p/src/m" (some [".js"]) = .error "EACCES" :=
  ⟨(probe_skips_only_enoent fs10 "/p/src/m" ".js" [] "EACCES").1 rfl rfl,
   (probe_skips_only_enoent fs10 "/p/src/m" ".js" [] "EACCES").2.2.1 rfl rfl⟩
